import Mathlib

/-!
Shallow embedding of `fetch-release-notes.py`: a batch script that fetches
release-note pages (GitHub API, Dyalog documentation sites, the J wiki),
converts HTML to Markdown-like text, and caches the results keyed by
`"<language-key>-<version>"`.

Modelling conventions:
* Parsed HTML is the inductive type `Node` (text nodes and element nodes with a
  tag name, an attribute list, and children).  `NodeList` is a specialised list
  so that tree recursion is structural and kernel-reducible.
* The network is an oracle `String → NetOutcome` mapping a requested URL to an
  exception (`fail`), a parsed JSON release object (`json`, carrying the
  optional `body` field), or a parsed HTML page (`html`).
* Python strings are Lean `String`s; all string algorithms (strip, substring
  containment, replace, the newline-collapsing `while` loop) are implemented
  over `List Char` so that everything reduces in the kernel.
-/

/-- Python's `str.strip()` whitespace set (the ASCII part used by `str.strip`
and BeautifulSoup's `strip=True`). -/
def pyIsSpace (c : Char) : Bool :=
  c = ' ' || c = '\t' || c = '\n' || c = '\r' || c = '\x0b' || c = '\x0c'

/-- Remove trailing whitespace characters from a character list. -/
def dropTrail (l : List Char) : List Char :=
  (l.reverse.dropWhile pyIsSpace).reverse

/-- Python `str.strip()` on a character list. -/
def pyStripL (l : List Char) : List Char :=
  dropTrail (l.dropWhile pyIsSpace)

/-- Python `str.strip()`. -/
def pyStrip (s : String) : String :=
  String.mk (pyStripL s.data)

/-- Python's substring containment `pat in l` on character lists. -/
def containsSeq : List Char → List Char → Bool
  | pat, [] => List.isPrefixOf pat []
  | pat, c :: rest => List.isPrefixOf pat (c :: rest) || containsSeq pat rest

/-- Python `pat in s` for strings. -/
def strContains (s pat : String) : Bool :=
  containsSeq pat.data s.data

/-- Python `s.startswith(pat)`. -/
def strStarts (s pat : String) : Bool :=
  List.isPrefixOf pat.data s.data

/-- Python `'\n'.join(fragments)`, producing the character list. -/
def joinSep : List String → List Char
  | [] => []
  | [s] => s.data
  | s :: rest => s.data ++ '\n' :: joinSep rest

/-- The pattern `"\n\n\n"` searched for by the clean-up loop. -/
def nl3 : List Char := ['\n', '\n', '\n']

/-- One pass of Python `result.replace('\n\n\n', '\n\n')`: leftmost
non-overlapping occurrences, scanning resumes after each replacement. -/
def collapseOnce : List Char → List Char
  | '\n' :: '\n' :: '\n' :: rest => '\n' :: '\n' :: collapseOnce rest
  | c :: rest => c :: collapseOnce rest
  | [] => []

/-- The `while '\n\n\n' in result: result = result.replace('\n\n\n','\n\n')`
loop, run with an iteration budget.  Each pass with a match strictly shortens
the list, so a budget equal to the initial length is sufficient and the fueled
version is extensionally the `while` loop (see `collapseIter_no_triple`). -/
def collapseIter : Nat → List Char → List Char
  | 0, l => l
  | fuel + 1, l => if containsSeq nl3 l then collapseIter fuel (collapseOnce l) else l

/-- The clean-up `while` loop of the two converter functions. -/
def collapseNL (l : List Char) : List Char :=
  collapseIter l.length l

/-- Shared post-processing of both converters: `'\n'.join(markdown)`, then the
newline-collapsing loop, then `.strip()`. -/
def postProcess (frags : List String) : String :=
  String.mk (pyStripL (collapseNL (joinSep frags)))

/-- Python `s.replace(pat, rep)` for a non-empty pattern `pat` (the script only
replaces the literal `"{version}"`): leftmost non-overlapping occurrences. -/
def replaceSeq (pat rep : List Char) : List Char → List Char
  | [] => []
  | c :: rest =>
    if h : List.isPrefixOf pat (c :: rest) ∧ pat ≠ [] then
      rep ++ replaceSeq pat rep ((c :: rest).drop pat.length)
    else
      c :: replaceSeq pat rep rest
termination_by l => l.length
decreasing_by
  · simp only [List.length_drop, List.length_cons]
    have hp : pat.length ≠ 0 := by
      intro h0
      exact h.2 (List.eq_nil_of_length_eq_zero h0)
    omega
  · simp only [List.length_cons]
    omega

/-- Python `s.replace(pat, rep)` on strings. -/
def pyReplace (s pat rep : String) : String :=
  String.mk (replaceSeq pat.data rep.data s.data)

/-- Split a whitespace-separated attribute value into tokens (accumulator form);
models how BeautifulSoup turns a `class` attribute into a class list. -/
def tokensWSAux : List Char → List Char → List (List Char)
  | [], cur => if cur = [] then [] else [cur.reverse]
  | c :: rest, cur =>
    if pyIsSpace c then
      (if cur = [] then tokensWSAux rest [] else cur.reverse :: tokensWSAux rest [])
    else
      tokensWSAux rest (c :: cur)

example : pyStrip "  hi there\n " = "hi there" := by decide
example : strContains "https://docs.dyalog.com/x" "docs.dyalog.com" = true := by decide
example : strContains "https://www.dyalog.com/x" "docs.dyalog.com" = false := by decide
example : String.mk (collapseNL "a\n\n\n\nb".data) = "a\n\nb" := by decide
example : tokensWSAux "a bc  d".data [] = ["a".data, "bc".data, "d".data] := by decide

/-! ## Parsed HTML documents -/

mutual
/-- A node of a parsed HTML tree: a text node (`NavigableString`) or an element
with a tag name, an attribute list, and children. -/
inductive Node where
  | text : String → Node
  | elem : String → List (String × String) → NodeList → Node
deriving Repr

/-- A list of sibling nodes (specialised so tree recursion is structural). -/
inductive NodeList where
  | nil : NodeList
  | cons : Node → NodeList → NodeList
deriving Repr
end

/-- Build a `NodeList` from an ordinary list (for writing documents down). -/
def NodeList.ofList : List Node → NodeList
  | [] => NodeList.nil
  | n :: rest => NodeList.cons n (NodeList.ofList rest)

/-- Append two sibling lists. -/
def nappend : NodeList → NodeList → NodeList
  | NodeList.nil, l => l
  | NodeList.cons n rest, l => NodeList.cons n (nappend rest l)

/-- The children of a node (`tag.children`); a text node has none. -/
def childrenOf : Node → NodeList
  | Node.text _ => NodeList.nil
  | Node.elem _ _ cs => cs

/-- Look up an attribute (`tag.get(key)`). -/
def getAttr (attrs : List (String × String)) (k : String) : Option String :=
  (attrs.find? (fun p => p.1 == k)).map (fun p => p.2)

/-- The class tokens of an attribute list: BeautifulSoup splits the `class`
attribute on whitespace into a list of class names. -/
def classTokens (attrs : List (String × String)) : List (List Char) :=
  tokensWSAux ((getAttr attrs "class").getD "").data []

/-- Does the element's class list contain the class `c`
(BeautifulSoup `class_=c` matching)? -/
def hasClassTok (attrs : List (String × String)) (c : String) : Bool :=
  (classTokens attrs).contains c.data

/-- `soup.find(tag)` filter: any element with this tag name. -/
def isTag (t : String) : Node → Bool
  | Node.text _ => false
  | Node.elem nm _ _ => nm == t

/-- `soup.find('div', class_=c)` filter. -/
def isDivClass (c : String) : Node → Bool
  | Node.text _ => false
  | Node.elem nm attrs _ => nm == "div" && hasClassTok attrs c

/-- `soup.find('div', id=i)` filter. -/
def isDivId (i : String) : Node → Bool
  | Node.text _ => false
  | Node.elem nm attrs _ => nm == "div" && getAttr attrs "id" == some i

/-- `content.find_all(['nav', 'footer'])` filter (decomposed by the
docs.dyalog.com branch). -/
def isNavFooter : Node → Bool
  | Node.text _ => false
  | Node.elem nm _ _ => nm == "nav" || nm == "footer"

/-- `content.find_all(['div', 'table'], class_=['toc', 'navbox', 'metadata',
'ambox'])` filter (decomposed by the J-wiki branch): a `div` or `table` one of
whose classes is in the given list. -/
def isWikiJunk : Node → Bool
  | Node.text _ => false
  | Node.elem nm attrs _ =>
    (nm == "div" || nm == "table") &&
      ((hasClassTok attrs "toc" || hasClassTok attrs "navbox") ||
       (hasClassTok attrs "metadata" || hasClassTok attrs "ambox"))

/-- Preorder search over descendants (`soup.find(...)` semantics: each node in
the list is tested, then its subtree, then the following siblings). -/
def findN (p : Node → Bool) : NodeList → Option Node
  | NodeList.nil => none
  | NodeList.cons (Node.text s) rest =>
    if p (Node.text s) then some (Node.text s) else findN p rest
  | NodeList.cons (Node.elem nm attrs cs) rest =>
    if p (Node.elem nm attrs cs) then some (Node.elem nm attrs cs)
    else
      match findN p cs with
      | some r => some r
      | none => findN p rest

/-- `soup.find(...)`: search the strict descendants of a node. -/
def nodeFind (p : Node → Bool) (n : Node) : Option Node :=
  findN p (childrenOf n)

/-- The `content = soup.find(a) ; if not content: content = soup.find(b)`
fallback pattern. -/
def orFind : Option Node → Option Node → Option Node
  | some c, _ => some c
  | none, o => o

/-- Remove every (arbitrarily nested) element matching `p`
(`for e in content.find_all(...): e.decompose()`). -/
def removeAllN (p : Node → Bool) : NodeList → NodeList
  | NodeList.nil => NodeList.nil
  | NodeList.cons (Node.text s) rest => NodeList.cons (Node.text s) (removeAllN p rest)
  | NodeList.cons (Node.elem nm attrs cs) rest =>
    if p (Node.elem nm attrs cs) then removeAllN p rest
    else NodeList.cons (Node.elem nm attrs (removeAllN p cs)) (removeAllN p rest)

/-- `element.get_text(strip=True)` over a sibling list: concatenate every
descendant string, each stripped. -/
def getTextStrip : NodeList → String
  | NodeList.nil => ""
  | NodeList.cons (Node.text s) rest => pyStrip s ++ getTextStrip rest
  | NodeList.cons (Node.elem _ _ cs) rest => getTextStrip cs ++ getTextStrip rest

/-- `content.find_all(tags)`: all descendant elements whose tag name is in
`tags`, in document (preorder) order, nested matches included. -/
def findAllTags (tags : List String) : NodeList → List Node
  | NodeList.nil => []
  | NodeList.cons (Node.text _) rest => findAllTags tags rest
  | NodeList.cons (Node.elem nm attrs cs) rest =>
    (if tags.contains nm then [Node.elem nm attrs cs] else []) ++
      findAllTags tags cs ++ findAllTags tags rest

/-! ## The converter `element_to_markdown` -/

/-- The child-processing loop of `element_to_markdown`: text verbatim; anchors
to `[text](href)` when both href and visible text are non-empty, else the
visible text; `strong`/`b` wrapped in `**`; `em`/`i` wrapped in `*`; `code` as a
backtick span of the flattened visible text; any other element converted
recursively with no separator. -/
def emitChildren : NodeList → String
  | NodeList.nil => ""
  | NodeList.cons (Node.text s) rest => s ++ emitChildren rest
  | NodeList.cons (Node.elem nm attrs cs) rest =>
    (if nm = "a" then
      (let href := (getAttr attrs "href").getD ""
       let t := getTextStrip cs
       if href ≠ "" ∧ t ≠ "" then "[" ++ t ++ "](" ++ href ++ ")" else t)
     else if nm = "strong" ∨ nm = "b" then "**" ++ emitChildren cs ++ "**"
     else if nm = "em" ∨ nm = "i" then "*" ++ emitChildren cs ++ "*"
     else if nm = "code" then "`" ++ getTextStrip cs ++ "`"
     else emitChildren cs) ++ emitChildren rest

/-- `element_to_markdown(element)` at its public boundary: `None` (absent
node) gives `""`, a bare text node gives its text, an element processes its
children.  (Python's `if not element` also returns `""` for an empty string or
a childless tag; in both cases the remaining code returns the same value.) -/
def element_to_markdown : Option Node → String
  | none => ""
  | some (Node.text s) => s
  | some (Node.elem _ _ cs) => emitChildren cs

example :
    element_to_markdown (some (Node.elem "p" []
      (NodeList.ofList [Node.text "see ",
        Node.elem "a" [("href", "https://x")] (NodeList.ofList [Node.text "here"]),
        Node.elem "strong" [] (NodeList.ofList [Node.text "now"])]))) =
      "see [here](https://x)**now**" := by decide

/-! ## Block-level walks of the three site layouts -/

/-- The `ul` handling shared by both Dyalog branches: each direct `li` child is
converted, stripped, and emitted as `* <content>` when non-empty. -/
def liFragsDocs : NodeList → List String
  | NodeList.nil => []
  | NodeList.cons (Node.text _) rest => liFragsDocs rest
  | NodeList.cons (Node.elem nm attrs cs) rest =>
    if nm = "li" then
      (let m := pyStrip (emitChildren cs)
       if m ≠ "" then ("* " ++ m) :: liFragsDocs rest else liFragsDocs rest)
    else liFragsDocs rest

/-- The J-wiki `ul` handling: additionally drops list items that start with a
bare URL (`li_md.startswith('http')`). -/
def liFragsWiki : NodeList → List String
  | NodeList.nil => []
  | NodeList.cons (Node.text _) rest => liFragsWiki rest
  | NodeList.cons (Node.elem nm attrs cs) rest =>
    if nm = "li" then
      (let m := pyStrip (emitChildren cs)
       if m ≠ "" ∧ strStarts m "http" = false then ("* " ++ m) :: liFragsWiki rest
       else liFragsWiki rest)
    else liFragsWiki rest

/-- The docs.dyalog.com walk over the direct children of the content root:
nameless nodes are skipped; `h1`/`h2`/`h3` emit headings (with a leading blank
line for `h2`/`h3`); `ul` emits its items and a blank line; `p` is converted,
stripped and kept only if longer than 5 characters, followed by a blank line;
`pre` emits a fenced code block when its text is non-empty. -/
def dyalogDocsWalk : NodeList → List String
  | NodeList.nil => []
  | NodeList.cons (Node.text _) rest => dyalogDocsWalk rest
  | NodeList.cons (Node.elem nm attrs cs) rest =>
    if nm = "h1" then ("# " ++ getTextStrip cs ++ "\n") :: dyalogDocsWalk rest
    else if nm = "h2" then ("\n## " ++ getTextStrip cs ++ "\n") :: dyalogDocsWalk rest
    else if nm = "h3" then ("\n### " ++ getTextStrip cs ++ "\n") :: dyalogDocsWalk rest
    else if nm = "ul" then liFragsDocs cs ++ "" :: dyalogDocsWalk rest
    else if nm = "p" then
      (let t := pyStrip (element_to_markdown (some (Node.elem nm attrs cs)))
       if t ≠ "" ∧ 5 < t.length then t :: "" :: dyalogDocsWalk rest
       else dyalogDocsWalk rest)
    else if nm = "pre" then
      (let t := getTextStrip cs
       if t ≠ "" then ("```\n" ++ t ++ "\n```") :: "" :: dyalogDocsWalk rest
       else dyalogDocsWalk rest)
    else dyalogDocsWalk rest

/-- Heading marker for the www.dyalog.com walk (`'#' * int(level)`). -/
def hashesFor (nm : String) : String :=
  if nm = "h1" then "#" else if nm = "h2" then "##" else "###"

/-- The www.dyalog.com walk over `content.find_all(['h1','h2','h3','p','ul'])`
(a flat preorder list of descendants): headings with non-empty text are emitted
surrounded by blank lines; `ul` and `p` are handled as in the docs walk. -/
def wwwWalkItems : List Node → List String
  | [] => []
  | Node.text _ :: rest => wwwWalkItems rest
  | Node.elem nm attrs cs :: rest =>
    if nm = "h1" ∨ nm = "h2" ∨ nm = "h3" then
      (let t := getTextStrip cs
       if t ≠ "" then ("\n" ++ hashesFor nm ++ " " ++ t ++ "\n") :: wwwWalkItems rest
       else wwwWalkItems rest)
    else if nm = "ul" then liFragsDocs cs ++ "" :: wwwWalkItems rest
    else if nm = "p" then
      (let t := pyStrip (element_to_markdown (some (Node.elem nm attrs cs)))
       if t ≠ "" ∧ 5 < t.length then t :: "" :: wwwWalkItems rest
       else wwwWalkItems rest)
    else wwwWalkItems rest

/-- The J-wiki walk over the direct children of the content root, threading the
`last_was_list` flag.  `h2` headings are dropped when their text contains
`[edit]` or equals `Contents` or `Navigation menu`; `h3` headings are dropped
only when their text contains `[edit]`; `ul` emits its items, a blank line, and
sets the flag; `p` (converted, stripped, kept only above 10 characters) emits an
extra blank line when the flag is set; `pre` emits a fenced block. -/
def wikiWalk : Bool → NodeList → List String
  | _, NodeList.nil => []
  | b, NodeList.cons (Node.text _) rest => wikiWalk b rest
  | b, NodeList.cons (Node.elem nm attrs cs) rest =>
    if nm = "h2" then
      (let t := getTextStrip cs
       if strContains t "[edit]" = false ∧ t ≠ "Contents" ∧ t ≠ "Navigation menu" then
         ("\n## " ++ t ++ "\n") :: wikiWalk false rest
       else wikiWalk b rest)
    else if nm = "h3" then
      (let t := getTextStrip cs
       if strContains t "[edit]" = false then ("\n### " ++ t ++ "\n") :: wikiWalk false rest
       else wikiWalk b rest)
    else if nm = "ul" then liFragsWiki cs ++ "" :: wikiWalk true rest
    else if nm = "p" then
      (let t := pyStrip (element_to_markdown (some (Node.elem nm attrs cs)))
       if t ≠ "" ∧ 10 < t.length then
         (if b then [""] else []) ++ t :: "" :: wikiWalk false rest
       else wikiWalk b rest)
    else if nm = "pre" then
      (let t := getTextStrip cs
       if t ≠ "" then ("```\n" ++ t ++ "\n```") :: "" :: wikiWalk false rest
       else wikiWalk b rest)
    else wikiWalk b rest

/-! ## The network boundary and the fetch functions -/

/-- Outcome of one `requests.get`: an exception / HTTP error raised by
`raise_for_status` (`fail`), a successful JSON document carrying the optional
`body` field of a release object (`json`), or a successfully parsed HTML page
(`html`). -/
inductive NetOutcome where
  | fail : String → NetOutcome
  | json : Option String → NetOutcome
  | html : Node → NetOutcome

/-- View an outcome as `response.json()`: failures propagate; an HTML page makes
`response.json()` raise the `json` decode error, which the surrounding
`except` turns into a message. -/
def toJsonResp : NetOutcome → Except String (Option String)
  | NetOutcome.fail e => Except.error e
  | NetOutcome.json b => Except.ok b
  | NetOutcome.html _ => Except.error "Expecting value: line 1 column 1 (char 0)"

/-- View an outcome as `BeautifulSoup(response.text, 'html.parser')`: failures
propagate; parsing never fails, and parsing a JSON body yields a soup with no
elements. -/
def toHtmlResp : NetOutcome → Except String Node
  | NetOutcome.fail e => Except.error e
  | NetOutcome.html n => Except.ok n
  | NetOutcome.json _ => Except.ok (Node.elem "[document]" [] NodeList.nil)

/-- The GitHub API URL built by `fetch_github_release_markdown`. -/
def apiUrl (repo tag : String) : String :=
  "https://api.github.com/repos/" ++ repo ++ "/releases/tags/" ++ tag

/-- `fetch_github_release_markdown(repo, tag)`: request the release object; on
any exception return `"Error fetching release notes: <message>"`; when the
`body` field is missing or empty return `"No release notes available."`;
otherwise return the body unconverted. -/
def fetch_github_release_markdown (oracle : String → NetOutcome) (repo tag : String) : String :=
  match toJsonResp (oracle (apiUrl repo tag)) with
  | Except.error e => "Error fetching release notes: " ++ e
  | Except.ok body =>
    if body.getD "" = "" then "No release notes available." else body.getD ""

/-- Strip a literal prefix from a character list, or fail. -/
def stripPre (pat l : List Char) : Option (List Char) :=
  if List.isPrefixOf pat l then some (l.drop pat.length) else none

/-- Split at the first `'/'`: the (possibly empty) segment before it and the
remainder after it; `none` when there is no `'/'`. -/
def splitFirstSlash : List Char → Option (List Char × List Char)
  | [] => none
  | '/' :: rest => some ([], rest)
  | c :: rest => (splitFirstSlash rest).map (fun p => (c :: p.1, p.2))

/-- The regex `https://github\.com/([^/]+)/([^/]+)/releases/tag/(.+)` of
`fetch_github_release`.  `[^/]+` cannot cross a slash and is followed by a
literal `/`, so matching is deterministic: owner and repo are the first two
slash-separated segments, then the literal `releases/tag/`, then a non-empty
tag (which may itself contain slashes). -/
def parseGithubUrl (url : String) : Option (String × String × String) :=
  match stripPre "https://github.com/".data url.data with
  | none => none
  | some r1 =>
    match splitFirstSlash r1 with
    | none => none
    | some (owner, r2) =>
      if owner = [] then none
      else
        match splitFirstSlash r2 with
        | none => none
        | some (repo, r3) =>
          if repo = [] then none
          else
            match stripPre "releases/tag/".data r3 with
            | none => none
            | some tag =>
              if tag = [] then none
              else some (String.mk owner, String.mk repo, String.mk tag)

/-- `fetch_github_release(url)`: parse the release-tag URL; on mismatch return
`"Invalid GitHub URL format"`, otherwise fetch via the API. -/
def fetch_github_release (oracle : String → NetOutcome) (url : String) : String :=
  match parseGithubUrl url with
  | none => "Invalid GitHub URL format"
  | some (owner, repo, tag) =>
    fetch_github_release_markdown oracle (owner ++ "/" ++ repo) tag

/-- The docs.dyalog.com pipeline applied to a located content root: decompose
`nav`/`footer` descendants, walk the direct children, post-process. -/
def docsContentToMarkdown (content : Node) : String :=
  postProcess (dyalogDocsWalk (removeAllN isNavFooter (childrenOf content)))

/-- The www.dyalog.com pipeline applied to a located content root: walk the
flat `find_all` list of heading/paragraph/list descendants (no pruning pass),
post-process. -/
def wwwContentToMarkdown (content : Node) : String :=
  postProcess (wwwWalkItems (findAllTags ["h1", "h2", "h3", "p", "ul"] (childrenOf content)))

/-- The J-wiki pipeline applied to a located content root: decompose
toc/navbox/metadata/ambox `div`/`table` descendants, walk the direct children
with `last_was_list = False`, post-process. -/
def wikiContentToMarkdown (content : Node) : String :=
  postProcess (wikiWalk false (removeAllN isWikiJunk (childrenOf content)))

/-- `fetch_dyalog_release(url)`: on a request exception return
`"Error fetching release notes: <message>"`.  For a docs.dyalog.com URL the
content root is `article`, falling back to `div.md-content`; otherwise it is
`div#content`, falling back to `main`; when no selector matches, return
`"Release notes not found on page."`. -/
def fetch_dyalog_release (oracle : String → NetOutcome) (url : String) : String :=
  match toHtmlResp (oracle url) with
  | Except.error e => "Error fetching release notes: " ++ e
  | Except.ok soup =>
    if strContains url "docs.dyalog.com" then
      match orFind (nodeFind (isTag "article") soup) (nodeFind (isDivClass "md-content") soup) with
      | none => "Release notes not found on page."
      | some content => docsContentToMarkdown content
    else
      match orFind (nodeFind (isDivId "content") soup) (nodeFind (isTag "main") soup) with
      | none => "Release notes not found on page."
      | some content => wwwContentToMarkdown content

/-- `fetch_j_wiki_release(url)`: on a request exception return
`"Error fetching release notes: <message>"`; the content root is
`div.mw-parser-output`, falling back to `div#mw-content-text`; when neither
matches, return `"Release notes not found on page."`. -/
def fetch_j_wiki_release (oracle : String → NetOutcome) (url : String) : String :=
  match toHtmlResp (oracle url) with
  | Except.error e => "Error fetching release notes: " ++ e
  | Except.ok soup =>
    match orFind (nodeFind (isDivClass "mw-parser-output") soup)
        (nodeFind (isDivId "mw-content-text") soup) with
    | none => "Release notes not found on page."
    | some content => wikiContentToMarkdown content

/-! ## The driving loop (`main`) -/

/-- One language entry of `releases.json`: `name`, and either a `url_template`
containing `{version}` or an explicit `releases` version-to-URL mapping
(`none` models an absent JSON key). -/
structure LangData where
  name : String
  url_template : Option String
  releases : Option (List (String × String))
deriving Repr, DecidableEq

/-- The configuration file: `languages` and the per-language version lists, as
insertion-ordered association lists (Python dicts). -/
structure ReleasesData where
  languages : List (String × LangData)
  releases : List (String × List String)
deriving Repr, DecidableEq

/-- One output cache entry. -/
structure ReleaseRecord where
  language : String
  version : String
  url : String
  notes : String
deriving Repr, DecidableEq

/-- Python `dict[k]` / `dict.get(k)` on an association list. -/
def lookupStr {α : Type} (l : List (String × α)) (k : String) : Option α :=
  (l.find? (fun p => p.1 == k)).map (fun p => p.2)

/-- Python `dict[k] = v`: overwrite in place when the key exists, else append
(insertion order preserved). -/
def cacheInsert (cache : List (String × ReleaseRecord)) (k : String) (v : ReleaseRecord) :
    List (String × ReleaseRecord) :=
  if (cache.find? (fun p => p.1 == k)).isSome then
    cache.map (fun p => if p.1 == k then (k, v) else p)
  else cache ++ [(k, v)]

/-- URL dispatch of the per-version body of `main`: by substring match on the
URL, in source order github / jsoftware / dyalog, else `"Unknown source"`. -/
def fetchNotes (oracle : String → NetOutcome) (url : String) : String :=
  if strContains url "github.com" then fetch_github_release oracle url
  else if strContains url "jsoftware.com" then fetch_j_wiki_release oracle url
  else if strContains url "dyalog.com" then fetch_dyalog_release oracle url
  else "Unknown source"

/-- URL resolution for one version: with an explicit `releases` mapping, a
missing or falsy URL makes the loop `continue` (`Except.ok none`); without one,
a missing `url_template` is an uncaught `KeyError` (fatal), otherwise
`{version}` is substituted. -/
def resolveUrl (ld : LangData) (version : String) : Except String (Option String) :=
  match ld.releases with
  | some rel =>
    Except.ok (match lookupStr rel version with
      | none => none
      | some u => if u = "" then none else some u)
  | none =>
    match ld.url_template with
    | none => Except.error "KeyError: url_template"
    | some t => Except.ok (some (pyReplace t "{version}" version))

/-- The inner loop of `main` over one language's versions, accumulating the
cache; fetch results (including sentinel strings) are stored under
`"<language-key>-<version>"`. -/
def runVersions (oracle : String → NetOutcome) (lang_key : String) (ld : LangData) :
    List String → List (String × ReleaseRecord) → Except String (List (String × ReleaseRecord))
  | [], cache => Except.ok cache
  | v :: rest, cache =>
    match resolveUrl ld v with
    | Except.error e => Except.error e
    | Except.ok none => runVersions oracle lang_key ld rest cache
    | Except.ok (some url) =>
      runVersions oracle lang_key ld rest
        (cacheInsert cache (lang_key ++ "-" ++ v)
          { language := ld.name, version := v, url := url, notes := fetchNotes oracle url })

/-- The outer loop of `main` over `releases_data['releases'].items()`; a
language key missing from `languages` is an uncaught `KeyError` (fatal). -/
def runLangs (oracle : String → NetOutcome) (langs : List (String × LangData)) :
    List (String × List String) → List (String × ReleaseRecord) →
      Except String (List (String × ReleaseRecord))
  | [], cache => Except.ok cache
  | (k, vs) :: rest, cache =>
    match lookupStr langs k with
    | none => Except.error ("KeyError: " ++ k)
    | some ld =>
      match runVersions oracle k ld vs cache with
      | Except.error e => Except.error e
      | Except.ok cache2 => runLangs oracle langs rest cache2

/-- `main()`, up to console printing and file I/O (named `mainRun` because Lean
reserves `main` for executables): fold the configuration into the notes cache
that is written to `release-notes-cache.json`; `Except.error` models an
uncaught (fatal) exception. -/
def mainRun (data : ReleasesData) (oracle : String → NetOutcome) :
    Except String (List (String × ReleaseRecord)) :=
  runLangs oracle data.languages data.releases []

/-- Did the run complete (no uncaught exception)? -/
def exceptOk : Except String (List (String × ReleaseRecord)) → Bool
  | Except.ok _ => true
  | Except.error _ => false

/-- The sentinel strings of the error-handling design. -/
def isSentinelStr (s : String) : Bool :=
  strStarts s "Error fetching release notes: " || strStarts s "Error: " ||
    s == "Invalid GitHub URL format" || s == "Unknown source" ||
    s == "Release notes not found on page."

example :
    parseGithubUrl "https://github.com/example/lang/releases/tag/1.0" =
      some ("example", "lang", "1.0") := by decide
example : parseGithubUrl "https://github.com/example/releases/tag/1.0" = none := by decide
example :
    fetch_github_release (fun _ => NetOutcome.json (some "hello"))
      "https://github.com/a/b/releases/tag/v1" = "hello" := by decide

/-! ## Lemmas about the newline-collapsing loop and stripping -/

theorem collapseOnce_le (l : List Char) : (collapseOnce l).length ≤ l.length := by
  induction l using collapseOnce.induct <;> simp [collapseOnce] <;> omega

theorem collapseOnce_lt (l : List Char) (h : containsSeq nl3 l = true) :
    (collapseOnce l).length < l.length := by
  induction l using collapseOnce.induct with
  | case1 rest ih =>
    have := collapseOnce_le rest
    simp only [collapseOnce, List.length_cons]
    omega
  | case2 c rest hne ih =>
    rw [collapseOnce.eq_2 c rest hne, List.length_cons, List.length_cons]
    rw [containsSeq] at h
    rcases Bool.or_eq_true_iff.mp h with hpre | htail
    · exfalso
      rw [List.isPrefixOf_iff_prefix, nl3] at hpre
      rcases hpre with ⟨t, ht⟩
      simp only [List.cons_append, List.cons.injEq] at ht
      exact hne ([] ++ t) ht.1.symm ht.2.symm
    · have := ih htail
      omega
  | case3 =>
    simp [containsSeq, nl3, List.isPrefixOf] at h

theorem collapseIter_no_triple :
    ∀ (fuel : Nat) (l : List Char), l.length ≤ fuel →
      containsSeq nl3 (collapseIter fuel l) = false := by
  intro fuel
  induction fuel with
  | zero =>
    intro l hl
    have hnil : l = [] := List.eq_nil_of_length_eq_zero (Nat.le_zero.mp hl)
    subst hnil
    simp [collapseIter, containsSeq, nl3, List.isPrefixOf]
  | succ n ih =>
    intro l hl
    rw [collapseIter]
    cases hc : containsSeq nl3 l with
    | true =>
      simp only [hc, if_true]
      refine ih _ ?_
      have := collapseOnce_lt l hc
      omega
    | false =>
      simp only [hc, Bool.false_eq_true, if_false]

/-- The result of the clean-up loop never contains `"\n\n\n"`. -/
theorem collapseNL_no_triple (l : List Char) : containsSeq nl3 (collapseNL l) = false :=
  collapseIter_no_triple l.length l le_rfl

theorem containsSeq_iff_isPart (pat l : List Char) : containsSeq pat l = true ↔ pat <:+: l := by
  induction l with
  | nil =>
    rw [containsSeq, List.isPrefixOf_iff_prefix, List.prefix_nil, List.infix_nil]
  | cons c rest ih =>
    rw [containsSeq, Bool.or_eq_true_iff, List.isPrefixOf_iff_prefix, ih, List.infix_cons_iff]

theorem containsSeq_false_of_infix (pat : List Char) {l₁ l₂ : List Char} (hinf : l₁ <:+: l₂)
    (h : containsSeq pat l₂ = false) : containsSeq pat l₁ = false := by
  by_contra hc
  have h1 : containsSeq pat l₁ = true := by
    cases hcl : containsSeq pat l₁ with
    | false => exact absurd hcl hc
    | true => rfl
  rw [containsSeq_iff_isPart] at h1
  have h2 : pat <:+: l₂ := h1.trans hinf
  rw [← containsSeq_iff_isPart] at h2
  exact Bool.noConfusion (h2.symm.trans h)

theorem dropTrail_leading (l : List Char) : dropTrail l <+: l := by
  have h := List.dropWhile_suffix (l := l.reverse) pyIsSpace
  rw [← List.reverse_reverse (List.dropWhile pyIsSpace l.reverse)] at h
  exact List.reverse_suffix.mp h

theorem pyStripL_isPart (l : List Char) : pyStripL l <:+: l :=
  ((dropTrail_leading (l.dropWhile pyIsSpace)).isInfix).trans
    ((List.dropWhile_suffix pyIsSpace).isInfix)

/-- The shared post-processing never returns a string containing `"\n\n\n"`,
whatever the emitted fragments were. -/
theorem postProcess_no_triple (frags : List String) :
    containsSeq nl3 (postProcess frags).data = false := by
  unfold postProcess
  exact containsSeq_false_of_infix nl3 (pyStripL_isPart _) (collapseNL_no_triple _)

/-! ## Structural lemmas about the tree walks -/

/-- Plain structural induction over sibling lists (children are untouched). -/
theorem NodeList.indOn {motive : NodeList → Prop} (hnil : motive NodeList.nil)
    (hcons : ∀ n rest, motive rest → motive (NodeList.cons n rest)) (l : NodeList) : motive l :=
  @NodeList.rec (fun _ => True) motive
    (fun _ => trivial) (fun _ _ _ _ => trivial) hnil (fun n rest _ hr => hcons n rest hr) l

theorem removeAllN_append (p : Node → Bool) (a b : NodeList) :
    removeAllN p (nappend a b) = nappend (removeAllN p a) (removeAllN p b) := by
  induction a using NodeList.indOn with
  | hnil => simp [nappend, removeAllN]
  | hcons n rest ih =>
    cases n <;> simp only [nappend, removeAllN, ih] <;> split <;> simp [nappend]

theorem dyalogDocsWalk_append (a b : NodeList) :
    dyalogDocsWalk (nappend a b) = dyalogDocsWalk a ++ dyalogDocsWalk b := by
  induction a using NodeList.indOn with
  | hnil => simp [nappend, dyalogDocsWalk]
  | hcons n rest ih =>
    cases n with
    | text s => simp only [nappend, dyalogDocsWalk, ih]
    | elem nm attrs cs =>
      simp only [nappend, dyalogDocsWalk, ih]
      repeat' split
      all_goals simp [List.append_assoc]

theorem emitChildren_append (a b : NodeList) :
    emitChildren (nappend a b) = emitChildren a ++ emitChildren b := by
  induction a using NodeList.indOn with
  | hnil => simp [nappend, emitChildren]
  | hcons n rest ih =>
    cases n with
    | text s => simp [nappend, emitChildren, ih, String.append_assoc]
    | elem nm attrs cs =>
      simp only [nappend, emitChildren, ih]
      simp [String.append_assoc]

/-! ## Claim theorems -/

/-- C10: the converter is total at its public boundary on degenerate inputs:
on `None` it returns the empty string, and on a bare text node it returns that
text unchanged (no exception is possible: the embedding is a total function). -/
theorem converter_total_on_degenerate_inputs :
    element_to_markdown none = "" ∧
      ∀ s : String, element_to_markdown (some (Node.text s)) = s :=
  ⟨rfl, fun _ => rfl⟩

/-- C7: for an anchor child anywhere in a converted element, the converter
emits `[text](href)` when both the `href` attribute and the visible text are
non-empty, and the visible text alone otherwise. -/
theorem anchor_link_markup :
    ∀ (nm : String) (pattrs attrs : List (String × String)) (pre post cs : NodeList),
      element_to_markdown (some (Node.elem nm pattrs
          (nappend pre (NodeList.cons (Node.elem "a" attrs cs) post)))) =
        emitChildren pre ++
          (if (getAttr attrs "href").getD "" ≠ "" ∧ getTextStrip cs ≠ "" then
            "[" ++ getTextStrip cs ++ "](" ++ (getAttr attrs "href").getD "" ++ ")"
          else getTextStrip cs) ++ emitChildren post := by
  intro nm pattrs attrs pre post cs
  rw [element_to_markdown, emitChildren_append]
  simp [emitChildren, String.append_assoc]

/-- C9: when the GitHub API response has a missing or empty `body` field, the
fetch returns the sentinel `"No release notes available."`. -/
theorem github_missing_or_empty_body_sentinel :
    ∀ (oracle : String → NetOutcome) (repo tag : String) (b : Option String),
      oracle (apiUrl repo tag) = NetOutcome.json b → b.getD "" = "" →
      fetch_github_release_markdown oracle repo tag = "No release notes available." := by
  intro oracle repo tag b ho hb
  rw [fetch_github_release_markdown, ho]
  simp [toJsonResp, hb]

theorem github_missing_or_empty_body_sentinel_witness :
    fetch_github_release_markdown (fun _ => NetOutcome.json none) "octo/repo" "v1" =
      "No release notes available." :=
  github_missing_or_empty_body_sentinel (fun _ => NetOutcome.json none) "octo/repo" "v1"
    none rfl rfl

/-- C1: when no selector of the site's priority list locates a content root
(docs.dyalog.com: `article` then `div.md-content`; www.dyalog.com:
`div#content` then `main`; the wiki: `div.mw-parser-output` then
`div#mw-content-text`), the fetch function returns exactly
`"Release notes not found on page."`. -/
theorem missing_content_root_sentinel :
    ∀ (oracle : String → NetOutcome) (url : String) (doc : Node),
      oracle url = NetOutcome.html doc →
      ((strContains url "docs.dyalog.com" = true →
        nodeFind (isTag "article") doc = none →
        nodeFind (isDivClass "md-content") doc = none →
        fetch_dyalog_release oracle url = "Release notes not found on page.") ∧
       (strContains url "docs.dyalog.com" = false →
        nodeFind (isDivId "content") doc = none →
        nodeFind (isTag "main") doc = none →
        fetch_dyalog_release oracle url = "Release notes not found on page.") ∧
       (nodeFind (isDivClass "mw-parser-output") doc = none →
        nodeFind (isDivId "mw-content-text") doc = none →
        fetch_j_wiki_release oracle url = "Release notes not found on page.")) := by
  intro oracle url doc ho
  refine ⟨?_, ?_, ?_⟩
  · intro hd h1 h2
    rw [fetch_dyalog_release, ho]
    simp [toHtmlResp, hd, h1, h2, orFind]
  · intro hd h1 h2
    rw [fetch_dyalog_release, ho]
    simp [toHtmlResp, hd, h1, h2, orFind]
  · intro h1 h2
    rw [fetch_j_wiki_release, ho]
    simp [toHtmlResp, h1, h2, orFind]

theorem missing_content_root_sentinel_witness :
    fetch_dyalog_release (fun _ => NetOutcome.html (Node.elem "html" [] NodeList.nil))
        "https://docs.dyalog.com/x" = "Release notes not found on page." ∧
    fetch_dyalog_release (fun _ => NetOutcome.html (Node.elem "html" [] NodeList.nil))
        "https://www.dyalog.com/x" = "Release notes not found on page." ∧
    fetch_j_wiki_release (fun _ => NetOutcome.html (Node.elem "html" [] NodeList.nil))
        "https://www.jsoftware.com/x" = "Release notes not found on page." :=
  ⟨(missing_content_root_sentinel _ "https://docs.dyalog.com/x"
      (Node.elem "html" [] NodeList.nil) rfl).1 rfl rfl rfl,
   (missing_content_root_sentinel _ "https://www.dyalog.com/x"
      (Node.elem "html" [] NodeList.nil) rfl).2.1 rfl rfl rfl,
   (missing_content_root_sentinel _ "https://www.jsoftware.com/x"
      (Node.elem "html" [] NodeList.nil) rfl).2.2 rfl rfl⟩

/-- C3: for every successfully fetched and parsed page, the conversion
functions return a string built by joining the fragments, repeatedly collapsing
`"\n\n\n"` to `"\n\n"`, and stripping; in particular the result never contains
three consecutive newline characters. -/
theorem converted_output_never_three_newlines :
    ∀ (oracle : String → NetOutcome) (url : String) (doc : Node),
      oracle url = NetOutcome.html doc →
      containsSeq nl3 (fetch_dyalog_release oracle url).data = false ∧
      containsSeq nl3 (fetch_j_wiki_release oracle url).data = false := by
  intro oracle url doc ho
  constructor
  · rw [fetch_dyalog_release, ho]
    simp only [toHtmlResp]
    split
    · split
      · decide
      · rw [docsContentToMarkdown]
        exact postProcess_no_triple _
    · split
      · decide
      · rw [wwwContentToMarkdown]
        exact postProcess_no_triple _
  · rw [fetch_j_wiki_release, ho]
    simp only [toHtmlResp]
    split
    · decide
    · rw [wikiContentToMarkdown]
      exact postProcess_no_triple _

theorem converted_output_never_three_newlines_witness :
    containsSeq nl3 (fetch_dyalog_release
        (fun _ => NetOutcome.html (Node.elem "html" [] NodeList.nil))
        "https://www.dyalog.com/x").data = false ∧
    containsSeq nl3 (fetch_j_wiki_release
        (fun _ => NetOutcome.html (Node.elem "html" [] NodeList.nil))
        "https://www.jsoftware.com/x").data = false :=
  ⟨(converted_output_never_three_newlines _ "https://www.dyalog.com/x"
      (Node.elem "html" [] NodeList.nil) rfl).1,
   (converted_output_never_three_newlines _ "https://www.jsoftware.com/x"
      (Node.elem "html" [] NodeList.nil) rfl).2⟩

/-- The one-language configuration of the end-to-end scenario. -/
def exampleConfig : ReleasesData :=
  { languages := [("examplelang",
      { name := "ExampleLang", url_template := none,
        releases := some [("1.0", "https://github.com/example/lang/releases/tag/1.0")] })],
    releases := [("examplelang", ["1.0"])] }

/-- The stubbed API: every request answers with the release body
`"## Changes\n- fixed bug"`. -/
def exampleOracle : String → NetOutcome :=
  fun _ => NetOutcome.json (some "## Changes\n- fixed bug")

/-- C8: end to end, the run stores under `"examplelang-1.0"` a record whose
`notes` field is exactly the GitHub body, unconverted. -/
theorem github_end_to_end_cache :
    mainRun exampleConfig exampleOracle =
      Except.ok [("examplelang-1.0",
        { language := "ExampleLang", version := "1.0",
          url := "https://github.com/example/lang/releases/tag/1.0",
          notes := "## Changes\n- fixed bug" })] := rfl

theorem ne_empty_of_pos_length {t : String} (h : 0 < t.length) : t ≠ "" := by
  intro he
  rw [he] at h
  simp [String.length] at h

/-- C4: a walked `p` child is converted, stripped, and dropped below the site
threshold (5 visible characters on both documentation-site layouts, 10 on the
wiki), otherwise emitted followed by a blank line. -/
theorem paragraph_threshold_filter :
    ∀ (attrs : List (String × String)) (cs pre post : NodeList) (b : Bool)
      (rest : NodeList) (items : List Node),
      (dyalogDocsWalk (nappend pre (NodeList.cons (Node.elem "p" attrs cs) post)) =
        dyalogDocsWalk pre ++
          (if 5 < (pyStrip (element_to_markdown (some (Node.elem "p" attrs cs)))).length then
            [pyStrip (element_to_markdown (some (Node.elem "p" attrs cs))), ""]
          else []) ++ dyalogDocsWalk post) ∧
      (wwwWalkItems (Node.elem "p" attrs cs :: items) =
        (if 5 < (pyStrip (element_to_markdown (some (Node.elem "p" attrs cs)))).length then
          [pyStrip (element_to_markdown (some (Node.elem "p" attrs cs))), ""]
        else []) ++ wwwWalkItems items) ∧
      (wikiWalk b (NodeList.cons (Node.elem "p" attrs cs) rest) =
        if 10 < (pyStrip (element_to_markdown (some (Node.elem "p" attrs cs)))).length then
          (if b then [""] else []) ++
            pyStrip (element_to_markdown (some (Node.elem "p" attrs cs))) :: "" ::
              wikiWalk false rest
        else wikiWalk b rest) := by
  intro attrs cs pre post b rest items
  refine ⟨?_, ?_, ?_⟩
  · rw [dyalogDocsWalk_append]
    simp only [dyalogDocsWalk]
    norm_num
    by_cases h5 : 5 < (pyStrip (element_to_markdown (some (Node.elem "p" attrs cs)))).length
    · have hne : pyStrip (element_to_markdown (some (Node.elem "p" attrs cs))) ≠ "" :=
        ne_empty_of_pos_length (Nat.lt_trans (by norm_num) h5)
      simp [h5, hne]
    · simp [h5]
  · simp only [wwwWalkItems]
    norm_num
    by_cases h5 : 5 < (pyStrip (element_to_markdown (some (Node.elem "p" attrs cs)))).length
    · have hne : pyStrip (element_to_markdown (some (Node.elem "p" attrs cs))) ≠ "" :=
        ne_empty_of_pos_length (Nat.lt_trans (by norm_num) h5)
      simp [h5, hne]
    · simp [h5]
  · simp only [wikiWalk]
    norm_num
    by_cases h10 : 10 < (pyStrip (element_to_markdown (some (Node.elem "p" attrs cs)))).length
    · have hne : pyStrip (element_to_markdown (some (Node.elem "p" attrs cs))) ≠ "" :=
        ne_empty_of_pos_length (Nat.lt_trans (by norm_num) h10)
      simp [h10, hne]
    · simp [h10]

/-- A wiki page whose content root holds a single `h3` heading with text
exactly `Contents`. -/
def wikiContentsDoc : Node :=
  Node.elem "html" [] (NodeList.ofList
    [Node.elem "div" [("class", "mw-parser-output")] (NodeList.ofList
      [Node.elem "h3" [] (NodeList.ofList [Node.text "Contents"])])])

/-- C5 counterexample: an `h3` heading whose text is exactly `"Contents"` is
emitted by the wiki walk (the `Contents` / `Navigation menu` filter is applied
only to `h2` headings), so the heading contributes an output line instead of
being dropped. -/
theorem wiki_h3_contents_heading_emitted :
    fetch_j_wiki_release (fun _ => NetOutcome.html wikiContentsDoc)
        "https://www.jsoftware.com/x" = "### Contents" ∧
      ("### Contents" : String) ≠ "" :=
  ⟨rfl, by decide⟩

/-- C5 amended: in the wiki walk, an `h2` heading is dropped when its text
contains `[edit]` or equals `Contents` or `Navigation menu`; an `h3` heading is
dropped only when its text contains `[edit]` — in particular an `h3` whose text
is exactly `Contents` is emitted as a heading. -/
theorem wiki_heading_filter_amended :
    ∀ (attrs : List (String × String)) (cs rest : NodeList) (b : Bool),
      (wikiWalk b (NodeList.cons (Node.elem "h2" attrs cs) rest) =
        if strContains (getTextStrip cs) "[edit]" = false ∧ getTextStrip cs ≠ "Contents" ∧
            getTextStrip cs ≠ "Navigation menu" then
          ("\n## " ++ getTextStrip cs ++ "\n") :: wikiWalk false rest
        else wikiWalk b rest) ∧
      (wikiWalk b (NodeList.cons (Node.elem "h3" attrs cs) rest) =
        if strContains (getTextStrip cs) "[edit]" = false then
          ("\n### " ++ getTextStrip cs ++ "\n") :: wikiWalk false rest
        else wikiWalk b rest) ∧
      (getTextStrip cs = "Contents" →
        wikiWalk b (NodeList.cons (Node.elem "h3" attrs cs) rest) =
          ("\n### Contents\n") :: wikiWalk false rest) := by
  intro attrs cs rest b
  refine ⟨?_, ?_, ?_⟩
  · simp only [wikiWalk]
    norm_num
  · simp only [wikiWalk]
    rw [if_neg (by decide), if_pos (by decide)]
  · intro hc
    simp only [wikiWalk, hc]
    rw [if_neg (by decide), if_pos (by decide)]
    rfl

theorem wiki_heading_filter_amended_witness :
    wikiWalk false (NodeList.cons
        (Node.elem "h3" [] (NodeList.ofList [Node.text "Contents"])) NodeList.nil) =
      ["\n### Contents\n"] :=
  ((wiki_heading_filter_amended [] (NodeList.ofList [Node.text "Contents"])
      NodeList.nil false).2.2 rfl).trans rfl

/-- A www.dyalog.com page whose `div#content` root contains a `nav` element
holding a paragraph. -/
def wwwNavDoc : Node :=
  Node.elem "html" [] (NodeList.ofList
    [Node.elem "div" [("id", "content")] (NodeList.ofList
      [Node.elem "nav" [] (NodeList.ofList
        [Node.elem "p" [] (NodeList.ofList [Node.text "Site navigation links"])])])])

/-- C6 counterexample: the www.dyalog.com branch performs no `nav`/`footer`
pruning pass, and its `find_all` walk descends into the `nav` element, so the
nav paragraph's content is the output of the fetch. -/
theorem www_nav_content_reaches_output :
    fetch_dyalog_release (fun _ => NetOutcome.html wwwNavDoc) "https://www.dyalog.com/v19" =
        "Site navigation links" ∧
      strContains "Site navigation links" "navigation" = true :=
  ⟨rfl, by decide⟩

/-- C6 amended: the pruning passes exist on the docs.dyalog.com branch
(`nav`/`footer`) and on the wiki branch (toc/navbox/metadata/ambox `div`s and
`table`s) — there a pruned element inserted among the content root's children
leaves the converted output unchanged — but the www.dyalog.com branch prunes
nothing, so nav/footer content can reach its output
(`www_nav_content_reaches_output`). -/
theorem pruning_on_docs_and_wiki_roots :
    ∀ (nm : String) (attrs : List (String × String)) (xs ys : NodeList) (junk : Node),
      (isNavFooter junk = true →
        docsContentToMarkdown (Node.elem nm attrs (nappend xs (NodeList.cons junk ys))) =
          docsContentToMarkdown (Node.elem nm attrs (nappend xs ys))) ∧
      (isWikiJunk junk = true →
        wikiContentToMarkdown (Node.elem nm attrs (nappend xs (NodeList.cons junk ys))) =
          wikiContentToMarkdown (Node.elem nm attrs (nappend xs ys))) := by
  intro nm attrs xs ys junk
  constructor
  · intro hj
    rw [docsContentToMarkdown, docsContentToMarkdown, childrenOf, childrenOf,
      removeAllN_append, removeAllN_append]
    cases junk with
    | text s => simp [isNavFooter] at hj
    | elem jn ja jc => simp [removeAllN, hj]
  · intro hj
    rw [wikiContentToMarkdown, wikiContentToMarkdown, childrenOf, childrenOf,
      removeAllN_append, removeAllN_append]
    cases junk with
    | text s => simp [isWikiJunk] at hj
    | elem jn ja jc => simp [removeAllN, hj]

theorem pruning_on_docs_and_wiki_roots_witness :
    docsContentToMarkdown (Node.elem "article" []
        (NodeList.cons (Node.elem "nav" [] NodeList.nil) NodeList.nil)) =
      docsContentToMarkdown (Node.elem "article" [] NodeList.nil) ∧
    wikiContentToMarkdown (Node.elem "div" [("class", "mw-parser-output")]
        (NodeList.cons (Node.elem "div" [("class", "toc")] NodeList.nil) NodeList.nil)) =
      wikiContentToMarkdown (Node.elem "div" [("class", "mw-parser-output")] NodeList.nil) :=
  ⟨(pruning_on_docs_and_wiki_roots "article" [] NodeList.nil NodeList.nil
      (Node.elem "nav" [] NodeList.nil)).1 rfl,
   (pruning_on_docs_and_wiki_roots "div" [("class", "mw-parser-output")] NodeList.nil
      NodeList.nil (Node.elem "div" [("class", "toc")] NodeList.nil)).2 rfl⟩

theorem strStarts_append (p m : String) : strStarts (p ++ m) p = true := by
  rw [strStarts, String.data_append, List.isPrefixOf_iff_prefix]
  exact List.prefix_append _ _

theorem runVersions_ok_indep (o o' : String → NetOutcome) (k : String) (ld : LangData)
    (vs : List String) (c c' : List (String × ReleaseRecord)) :
    exceptOk (runVersions o k ld vs c) = exceptOk (runVersions o' k ld vs c') := by
  induction vs generalizing c c' with
  | nil => rfl
  | cons v rest ih =>
    rw [runVersions, runVersions]
    cases resolveUrl ld v with
    | error e => rfl
    | ok u =>
      cases u with
      | none => exact ih c c'
      | some url => exact ih _ _

theorem runLangs_ok_indep (o o' : String → NetOutcome) (langs : List (String × LangData))
    (rs : List (String × List String)) (c c' : List (String × ReleaseRecord)) :
    exceptOk (runLangs o langs rs c) = exceptOk (runLangs o' langs rs c') := by
  induction rs generalizing c c' with
  | nil => rfl
  | cons kv rest ih =>
    rw [runLangs, runLangs]
    cases lookupStr langs kv.1 with
    | none => rfl
    | some ld =>
      dsimp only
      have h := runVersions_ok_indep o o' kv.1 ld kv.2 c c'
      cases hv : runVersions o kv.1 ld kv.2 c with
      | error e =>
        cases hv' : runVersions o' kv.1 ld kv.2 c' with
        | error e2 => rfl
        | ok c2 =>
          rw [hv, hv'] at h
          simp [exceptOk] at h
      | ok c2 =>
        cases hv' : runVersions o' kv.1 ld kv.2 c' with
        | error e2 =>
          rw [hv, hv'] at h
          simp [exceptOk] at h
        | ok c2' => exact ih c2 c2'

/-- C2: whether the run completes does not depend on any fetch outcome (it can
only abort on configuration `KeyError`s), and under a failing network every
URL's per-version fetch result is one of the sentinel strings, which `mainRun`
stores in the cache in place of real notes. -/
theorem per_version_failures_become_sentinels :
    (∀ (data : ReleasesData) (o o' : String → NetOutcome),
      exceptOk (mainRun data o) = exceptOk (mainRun data o')) ∧
    (∀ (o : String → NetOutcome) (e : String), (∀ u, o u = NetOutcome.fail e) →
      ∀ url : String, isSentinelStr (fetchNotes o url) = true) := by
  constructor
  · intro data o o'
    exact runLangs_ok_indep o o' data.languages data.releases [] []
  · intro o e he url
    rw [fetchNotes]
    by_cases hg : strContains url "github.com" = true
    · rw [if_pos hg, fetch_github_release]
      cases parseGithubUrl url with
      | none => rfl
      | some t =>
        obtain ⟨ow, rp, tg⟩ := t
        dsimp only
        rw [fetch_github_release_markdown, he, toJsonResp]
        simp [isSentinelStr, strStarts_append]
    · rw [if_neg hg]
      by_cases hj : strContains url "jsoftware.com" = true
      · rw [if_pos hj, fetch_j_wiki_release, he, toHtmlResp]
        simp [isSentinelStr, strStarts_append]
      · rw [if_neg hj]
        by_cases hd : strContains url "dyalog.com" = true
        · rw [if_pos hd, fetch_dyalog_release, he, toHtmlResp]
          simp [isSentinelStr, strStarts_append]
        · rw [if_neg hd]
          rfl

theorem per_version_failures_become_sentinels_witness :
    isSentinelStr (fetchNotes (fun _ => NetOutcome.fail "connection refused")
      "https://github.com/a/b/releases/tag/v1") = true :=
  per_version_failures_become_sentinels.2 (fun _ => NetOutcome.fail "connection refused")
    "connection refused" (fun _ => rfl) "https://github.com/a/b/releases/tag/v1"
